import Mathlib

/-!
Verification development for the dagmaid repository (src/utils.js,
src/mermaid-updater.js).

JavaScript strings are shallowly embedded as `List Char`.  The regular
expressions in the source use only the character classes `\w`, `\s` and
`\d` together with literal characters and unambiguous greedy repetition,
so each regex is embedded as a deterministic character-level scanner.
The unicode members of the JS classes `\s`/`\w` beyond ASCII are not
modelled; all inputs considered here are ASCII.
-/

namespace Dagmaid

/-- JavaScript strings, embedded as lists of characters. -/
abbrev JStr := List Char

/-- Membership in the JS regex class `\w` (ASCII range): `[A-Za-z0-9_]`. -/
def isWordChar (c : Char) : Bool := c.isAlpha || c.isDigit || c = '_'

/-- Membership in the JS regex class `\s` (ASCII range). -/
def isWsChar (c : Char) : Bool := c = ' ' || c = '\t' || c = '\n' || c = '\r'

/-- Membership in the JS regex class `\d`. -/
def isDigitChar (c : Char) : Bool := c.isDigit

/-- Embedding of `String.prototype.trim` (ASCII whitespace). -/
def trimChars (s : JStr) : JStr :=
  ((s.dropWhile isWsChar).reverse.dropWhile isWsChar).reverse

/-- Prepend a character to the first line of a line list. -/
def consHead (c : Char) : List JStr → List JStr
  | [] => [[c]]
  | l :: ls => (c :: l) :: ls

/-- Split a string at every newline character.  `splitLines s` always has
at least one element; a trailing newline yields a trailing empty line. -/
def splitLines : JStr → List JStr
  | [] => [[]]
  | c :: cs => if c = '\n' then [] :: splitLines cs else consHead c (splitLines cs)

/-- Inverse of `splitLines`: interleave the lines with newline characters. -/
def joinLines : List JStr → JStr
  | [] => []
  | [l] => l
  | l :: ls => l ++ '\n' :: joinLines ls

/-- A line matched by the anchored regex `^%%` (`utils.js` comment marker). -/
def isCommentLine (l : JStr) : Bool := (['%', '%'] : JStr).isPrefixOf l

/-- Embedding of `fileContent.replace(/^%%.*$/gm, '')` from
`extractDiagram` (utils.js line 184): the content of every line that
starts with `%%` is removed while the newline itself survives. -/
def stripComments (s : JStr) : JStr :=
  joinLines ((splitLines s).map (fun l => if isCommentLine l then [] else l))

/-- Embedding of `String.prototype.includes`. -/
def containsSub (needle hay : JStr) : Bool :=
  hay.tails.any (fun t => needle.isPrefixOf t)

/-- A single-quote character, the quote used inside the injected theme text. -/
def sq : Char := Char.ofNat 39

/-- The injected theme configuration of `extractDiagram` (utils.js lines
189-197) up to but excluding its final newline, with the default colors
`#4472C4` / `#fff` that `extractColors` yields for the absent
`config.defaultStyle` of the call in `fetchAndUpdate`. -/
def themeInit : JStr :=
  "---\nconfig:\n  theme: ".toList ++ [sq] ++ "base".toList ++ [sq] ++
  "\n  themeVariables:\n    primaryColor: ".toList ++ [sq] ++ "#4472C4".toList ++ [sq] ++
  "\n    primaryTextColor: ".toList ++ [sq] ++ "#fff".toList ++ [sq] ++
  "\n---\n".toList

/-- The complete injected theme preamble (it ends with a blank line). -/
def themeConfig : JStr := themeInit ++ ['\n']

/-- The needle of the `includes` test in `extractDiagram`:
the string literal `---\nconfig:`. -/
def configNeedle : JStr := "---\nconfig:".toList

/-- Embedding of `extractDiagram(fileContent)` (utils.js lines 182-202)
as called from `fetchAndUpdate`, i.e. with the default `config = {}`:
strip comment lines, trim, and prepend the theme preamble unless the
text already contains `---\nconfig:`. -/
def extractDiagram (fileContent : JStr) : JStr :=
  let diagramText := trimChars (stripComments fileContent)
  if containsSub configNeedle diagramText then diagramText
  else themeConfig ++ diagramText

/-- Greedy match of `\w+`: the (nonempty) maximal word-character run and
the remaining input.  Returns `none` when the run would be empty. -/
def takeWord (s : JStr) : Option (JStr × JStr) :=
  let w := s.takeWhile isWordChar
  if w = [] then none else some (w, s.dropWhile isWordChar)

/-- Greedy match of `\d+`. -/
def takeDigits (s : JStr) : Option (JStr × JStr) :=
  let w := s.takeWhile isDigitChar
  if w = [] then none else some (w, s.dropWhile isDigitChar)

/-- Greedy match of `\s*`.  As in the JS class `\s`, newlines count as
whitespace, so this step may cross a line boundary. -/
def skipWs (s : JStr) : JStr := s.dropWhile isWsChar

/-- Numeric value of a digit string, as computed by `parseInt(ds, 10)`. -/
def digitsToNat (ds : JStr) : Nat :=
  ds.foldl (fun a c => a * 10 + (c.toNat - 48)) 0

/-- Stage `\((\d+)s\)` of the status regex: an opening parenthesis, the
digit capture, then the literal `s)`. -/
def matchRuntimePart (id st : JStr) (r5 : JStr) : Option (JStr × JStr × Nat × JStr) :=
  match r5 with
  | '(' :: r6 =>
    match takeDigits r6 with
    | some (ds, 's' :: ')' :: r8) => some (id, st, digitsToNat ds, r8)
    | _ => none
  | _ => none

/-- Stage `\s*(\w+)\s*` of the status regex: the state capture between
two whitespace runs. -/
def matchStatePart (id : JStr) (r2 : JStr) : Option (JStr × JStr × Nat × JStr) :=
  match takeWord (skipWs r2) with
  | none => none
  | some (st, r4) => matchRuntimePart id st (skipWs r4)

/-- Stage `(\w+):` of the status regex: the block-id capture followed by
the literal colon. -/
def matchAfterMarker (r : JStr) : Option (JStr × JStr × Nat × JStr) :=
  match takeWord r with
  | some (id, ':' :: r2) => matchStatePart id r2
  | _ => none

/-- Match of the body of the `parseStates` regex
`%% (\w+):\s*(\w+)\s*\((\d+)s\)` (utils.js line 119) at the given
position, yielding the two captured word tokens, the numeric value of the
digit capture, and the input remaining after the match.  Each repetition
is followed by a character outside its class, so the greedy scan needs no
backtracking and the match, if any, is unique. -/
def matchStatusAt (s : JStr) : Option (JStr × JStr × Nat × JStr) :=
  match s with
  | '%' :: '%' :: ' ' :: r => matchAfterMarker r
  | _ => none

/-- Embedding of `matchAll` with the `gm`-flagged status regex: walk the
input, attempt `matchStatusAt` at every line start, and resume after the
end of each match (`lastIndex` semantics; a match never ends in a
newline, so scanning resumes mid-line).  The fuel argument dominates the
input length, decreasing by at least as much as the input at every
step. -/
def scanStates : Nat → JStr → Bool → List (JStr × JStr × Nat)
  | 0, _, _ => []
  | _ + 1, [], _ => []
  | fuel + 1, c :: cs, atStart =>
    if atStart then
      match matchStatusAt (c :: cs) with
      | some (id, st, rt, rest) => (id, st, rt) :: scanStates fuel rest false
      | none => scanStates fuel cs (c = '\n')
    else scanStates fuel cs (c = '\n')

/-- Per-block record stored by `parseStates`: `{ state, runtime }`.
The regex makes the runtime capture mandatory, so `runtime` is a plain
`Nat` here. -/
structure BlockEntry where
  state : JStr
  runtime : Nat
deriving DecidableEq

/-- Embedding of `Map.prototype.set`: replace the first binding of the
key in place, or append a fresh binding. -/
def upsert : List (JStr × BlockEntry) → JStr → BlockEntry → List (JStr × BlockEntry)
  | [], k, v => [(k, v)]
  | (k', v') :: rest, k, v =>
    if k' = k then (k, v) :: rest else (k', v') :: upsert rest k v

/-- Embedding of `parseStates(fileContent)` (utils.js lines 115-128):
run the global status regex over the input and collect the matches into a
map, later matches for the same block id overwriting earlier ones. -/
def parseStates (fileContent : JStr) : List (JStr × BlockEntry) :=
  (scanStates fileContent.length fileContent true).foldl
    (fun m t => upsert m t.1 ⟨t.2.1, t.2.2⟩) []

/-- Embedding of `Map.prototype.get` on the association lists built by
`parseStates`. -/
def lookupBlock (m : List (JStr × BlockEntry)) (k : JStr) : Option BlockEntry :=
  (m.find? (fun p => p.1 = k)).map (fun p => p.2)

/-- The two attribute names `isAttrChange` is called with. -/
inductive Attr
  | state
  | runtime
deriving DecidableEq

/-- Embedding of the JS property access `block[attribute]`. -/
def attrVal (e : BlockEntry) : Attr → JStr ⊕ Nat
  | .state => .inl e.state
  | .runtime => .inr e.runtime

/-- The union of the key sets of the two maps, as built by
`new Set([...oldStates.keys(), ...newStates.keys()])`. -/
def allBlockIds (old new : List (JStr × BlockEntry)) : List JStr :=
  (old.map (fun p => p.1) ++ new.map (fun p => p.1)).dedup

/-- Embedding of `isAttrChange(oldStates, newStates, attribute)`
(utils.js lines 137-153) on non-null maps: some block id of either map is
missing from the other or carries a different attribute value. -/
def isAttrChange (old new : List (JStr × BlockEntry)) (a : Attr) : Bool :=
  (allBlockIds old new).any fun id =>
    match lookupBlock old id, lookupBlock new id with
    | some ob, some nb => decide (attrVal ob a ≠ attrVal nb a)
    | _, _ => true

/-- The literal part `%% Status:` of the timestamp regex
`^%% Status:\s*(.+)$` (utils.js line 89). -/
def statusMarker : JStr := "%% Status:".toList

/-- Match of `\s*(.+)$` (multiline flavour): greedily consume
whitespace — newlines included — and capture a nonempty run of
non-newline characters up to the end of its line, backtracking the
whitespace run by one character when it would leave the capture empty. -/
def captureAfterWs : JStr → Option JStr
  | [] => none
  | c :: cs =>
    if isWsChar c then
      match captureAfterWs cs with
      | some cap => some cap
      | none => if c = '\n' then none else some ((c :: cs).takeWhile (fun x => x ≠ '\n'))
    else some ((c :: cs).takeWhile (fun x => x ≠ '\n'))

/-- First match of the anchored status regex over the whole input:
at every line start, try the literal marker followed by
`captureAfterWs`; the first success yields the capture. -/
def statusCaptureAux : Nat → JStr → Bool → Option JStr
  | 0, _, _ => none
  | _ + 1, [], _ => none
  | fuel + 1, c :: cs, atStart =>
    if atStart && statusMarker.isPrefixOf (c :: cs) then
      match captureAfterWs ((c :: cs).drop statusMarker.length) with
      | some cap => some cap
      | none => statusCaptureAux fuel cs (c = '\n')
    else statusCaptureAux fuel cs (c = '\n')

/-- The capture of `fileContent.match(/^%% Status:\s*(.+)$/m)`, or `none`
when the regex does not match. -/
def statusCapture (s : JStr) : Option JStr :=
  statusCaptureAux s.length s true

/-- The body of `getTimestamp` (utils.js lines 88-91) before its
`try/catch`: accessing `timestampMatch[1]` throws a `TypeError` when the
match failed (modelled as `Except.error ()`), otherwise the trimmed
capture is handed to `new Date(...)`, whose parse — abstracted as the
parameter `parseDate` returning the instant's epoch value — yields `null`
exactly on an invalid date (`isNaN(statusDate.getTime())`). -/
def getTimestampBody (parseDate : JStr → Option Int) (fileContent : JStr) :
    Except Unit (Option Int) :=
  match statusCapture fileContent with
  | none => .error ()
  | some v => .ok (parseDate (trimChars v))

/-- Embedding of `getTimestamp(fileContent)` (utils.js lines 87-95): the
`try/catch` turns the thrown `TypeError` into `null`. -/
def getTimestamp (parseDate : JStr → Option Int) (fileContent : JStr) : Option Int :=
  match getTimestampBody parseDate fileContent with
  | .error _ => none
  | .ok r => r

/-- The fixed staleness threshold `MAX_STATUS_AGE_S` (utils.js line 18),
in seconds. -/
def MAX_STATUS_AGE_S : ℚ := 60

/-- Embedding of the staleness decision
`statusAge !== null && statusAge >= MAX_STATUS_AGE_S` of `updateDiagram`
(mermaid-updater.js line 54).  Ages are modelled as rationals: the JS
value is `(now - timestamp) / 1000`, a possibly fractional number of
seconds. -/
def isStale (statusAge : Option ℚ) : Bool :=
  match statusAge with
  | none => false
  | some a => decide (a ≥ MAX_STATUS_AGE_S)

/-- The mutable closure state of `createDiagramManager` (utils.js lines
213-215) that one fetch cycle reads and writes. -/
structure MgrState where
  lastDiagram : Option JStr
  lastStates : Option (List (JStr × BlockEntry))
  lastTimestamp : Option Int
deriving DecidableEq

/-- The three fields start out as `null`. -/
def initState : MgrState := ⟨none, none, none⟩

/-- A call `isAttrChange(old, states, attr)` as written in
`fetchAndUpdate`, where `old` may be the nullable `lastStates`: on
`null` the call throws (`.keys()` on `null`), modelled as an error. -/
def isAttrChangeJS (old : Option (List (JStr × BlockEntry)))
    (states : List (JStr × BlockEntry)) (a : Attr) : Except Unit Bool :=
  match old with
  | none => .error ()
  | some o => .ok (isAttrChange o states a)

/-- The redraw condition of `fetchAndUpdate` (utils.js line 236) with JS
left-to-right short-circuit evaluation:
`lastDiagram !== diagram || isAttrChange(lastStates, states, 'state') ||
lastTimestamp?.getTime() !== timestmap?.getTime()`.  The first disjunct
is a strict comparison of a nullable string with a string; the third
compares the optional epoch values (`undefined !== undefined` is false,
so two absent timestamps count as equal). -/
def redrawCond (st : MgrState) (diagram : JStr)
    (states : List (JStr × BlockEntry)) (ts : Option Int) : Except Unit Bool :=
  if st.lastDiagram ≠ some diagram then .ok true
  else
    match isAttrChangeJS st.lastStates states .state with
    | .error e => .error e
    | .ok true => .ok true
    | .ok false => .ok (decide (st.lastTimestamp ≠ ts))

/-- The success continuation of one fetch cycle (`fetchAndUpdate`,
utils.js lines 230-246), run on the fetched text: parse, fire the redraw
branch when the redraw condition holds (retaining the fresh snapshot
first), then fire the update branch when `isAttrChange(lastStates,
states, 'runtime')` holds — evaluated against the already-updated
`lastStates`.  The result carries the new state and the two fired flags
(redraw, update); a thrown `TypeError` is an `Except.error` carrying the
state at the throw point and whether redraw had already fired.
Subscriber callbacks are modelled as non-throwing here; `deliver` below
models a throwing callback. -/
def processContent (parseDate : JStr → Option Int) (st : MgrState)
    (fileContent : JStr) : Except (MgrState × Bool) (MgrState × Bool × Bool) :=
  let diagram := extractDiagram fileContent
  let states := parseStates fileContent
  let ts := getTimestamp parseDate fileContent
  match redrawCond st diagram states ts with
  | .error _ => .error (st, false)
  | .ok rc =>
    let st1 := if rc then ⟨some diagram, some states, ts⟩ else st
    match isAttrChangeJS st1.lastStates states .runtime with
    | .error _ => .error (st1, rc)
    | .ok uc =>
      let st2 := if uc then { st1 with lastStates := some states } else st1
      .ok (st2, rc, uc)

/-- Outcome of one `fetch` of the diagram URL: a rejected promise
(network error), or a response with an HTTP status code and a body
(the value `r.text()` resolves to). -/
inductive FetchResult
  | err
  | ok (status : Nat) (body : JStr)

/-- One whole fetch cycle of `fetchAndUpdate` (utils.js lines 226-249).
The response's HTTP status is never inspected by the code — the chain
goes straight to `r.text()` — and the trailing `.catch(() => {})`
swallows both rejected fetches and exceptions thrown by the success
continuation, so the cycle returns normally in every case. -/
def fetchCycle (parseDate : JStr → Option Int) (st : MgrState)
    (fr : FetchResult) : MgrState × Bool × Bool :=
  match fr with
  | .err => (st, false, false)
  | .ok _ body =>
    match processContent parseDate st body with
    | .ok r => r
    | .error (st', rf) => (st', rf, false)

/-- The invariant relating the retained fields of the manager state:
`lastStates` is `null` exactly when `lastDiagram` is. -/
def MgrInv (st : MgrState) : Prop :=
  st.lastStates = none ↔ st.lastDiagram = none

/-- Embedding of the notification loop
`subs.forEach(callback => callback(fileContent))` of `triggerRedraw` /
`triggerUpdate` (utils.js lines 218-224).  A callback is abstracted by
whether it throws on the given content (`true` = throws); `forEach`
invokes the callbacks in registration order and a thrown exception aborts
the iteration and propagates.  The result counts the callbacks that were
invoked and reports whether the loop was aborted by an exception. -/
def deliver : List (JStr → Bool) → JStr → Nat × Bool
  | [], _ => (0, false)
  | f :: fs, c =>
    if f c then (1, true)
    else
      let r := deliver fs c
      (r.1 + 1, r.2)

/-- State of one poller instance: the manager closure state, whether the
interval timer is installed (`refreshTimer`), and the number of fetch
cycles currently in flight (issued fetches whose continuation has not yet
run). -/
structure PollerState where
  mgr : MgrState
  timerOn : Bool
  inFlight : Nat
deriving DecidableEq

/-- Freshly created manager: no timer, nothing in flight. -/
def pollerInit : PollerState := ⟨initState, false, 0⟩

/-- Embedding of `start()` (utils.js lines 251-255): a no-op when the
timer already exists; otherwise one immediate `fetchAndUpdate()` — whose
synchronous prefix unconditionally issues a fetch — then the interval
timer is installed. -/
def startStep (s : PollerState) : PollerState :=
  if s.timerOn then s else { s with inFlight := s.inFlight + 1, timerOn := true }

/-- A tick of the interval timer: `setInterval` invokes `fetchAndUpdate`,
whose synchronous prefix issues a fetch unconditionally — there is no
in-flight guard in the source — so every tick adds one in-flight cycle. -/
def tickStep (s : PollerState) : PollerState :=
  if s.timerOn then { s with inFlight := s.inFlight + 1 } else s

/-- Embedding of `stop()` (utils.js lines 257-261). -/
def stopStep (s : PollerState) : PollerState :=
  { s with timerOn := false }

/-- Arrival of one fetch outcome: the corresponding promise continuation
runs `fetchCycle` synchronously to completion.  Returns the new poller
state and the fired flags. -/
def completeStep (parseDate : JStr → Option Int) (s : PollerState)
    (fr : FetchResult) : PollerState × Bool × Bool :=
  if s.inFlight = 0 then (s, false, false)
  else
    let r := fetchCycle parseDate s.mgr fr
    ({ s with mgr := r.1, inFlight := s.inFlight - 1 }, r.2.1, r.2.2)

/-- Events of the single-threaded event loop driving one poller. -/
inductive PEvent
  | start
  | stop
  | tick
  | complete (fr : FetchResult)

/-- Run a sequence of event-loop events from a given poller state. -/
def pollerRun (parseDate : JStr → Option Int) : PollerState → List PEvent → PollerState
  | s, [] => s
  | s, e :: es =>
    let s' :=
      match e with
      | .start => startStep s
      | .stop => stopStep s
      | .tick => tickStep s
      | .complete fr => (completeStep parseDate s fr).1
    pollerRun parseDate s' es

/-- A date parse that accepts nothing; any fixed parse function works for
the manager-cycle claims, whose inputs carry no status line. -/
def pdNone : JStr → Option Int := fun _ => none

/-- A date parse recognizing the literal `T0` as epoch instant `0`. -/
def pdT : JStr → Option Int := fun v => if v = "T0".toList then some 0 else none

/-- First fetched text of the two-cycle scenario: a diagram plus one
status line with state `Running`, runtime 5. -/
def content1 : JStr := "graph LR\nRead(Read)\n%% Read: Running (5s)".toList

/-- Second fetched text: same diagram body, block `Read` now `Success`
with runtime 12 — state and runtime both changed. -/
def content2 : JStr := "graph LR\nRead(Read)\n%% Read: Success (12s)".toList

/-- A plain successful body for a first cycle. -/
def bodyPlain : JStr := "graph LR".toList

/-- The body a web server typically serves with a 404 status. -/
def bodyNotFound : JStr := "Not Found".toList

/-- Manager state after one successful cycle on `bodyPlain`. -/
def stAfterPlain : MgrState := (fetchCycle pdNone initState (.ok 200 bodyPlain)).1

/-- Manager state after one successful cycle on `content1`. -/
def stAfterC1 : MgrState := (fetchCycle pdNone initState (.ok 200 content1)).1

/-- Two registered callbacks: the first throws, the second does not. -/
def cbsThrowFirst : List (JStr → Bool) := [fun _ => true, fun _ => false]

/-- A well-formed resource text for the idempotence witness. -/
def c8input : JStr := "graph LR\n%% A: Running (3s)".toList

/-- A status comment line with a valid state but no duration suffix,
exactly as in the repository README's example. -/
def noDurationLine : JStr := "%% Inform: Waiting".toList

/-- A status comment line whose state token is outside the four-value
vocabulary. -/
def bogusStateLine : JStr := "%% A: Bogus (5s)".toList

/-- The four-value state vocabulary of the specification. -/
def stateVocab : List JStr :=
  ["Waiting".toList, "Running".toList, "Success".toList, "Failed".toList]

/-! ### Helper lemmas -/

lemma takeWord_char {s w r : JStr} (h : takeWord s = some (w, r)) :
    w ≠ [] ∧ w.all isWordChar ∧ r = s.dropWhile isWordChar := by
  unfold takeWord at h
  by_cases hw : s.takeWhile isWordChar = []
  · simp [hw] at h
  · simp only [hw, if_false, Option.some.injEq, Prod.mk.injEq] at h
    obtain ⟨h1, h2⟩ := h
    subst h1; subst h2
    exact ⟨hw, List.all_takeWhile, rfl⟩

lemma takeWord_rest_sublist {s w r : JStr} (h : takeWord s = some (w, r)) :
    List.Sublist r s := by
  rw [(takeWord_char h).2.2]
  exact List.dropWhile_sublist _

lemma skipWs_sublist (s : JStr) : List.Sublist (skipWs s) s := List.dropWhile_sublist _

lemma matchRuntimePart_paren {id st r5 : JStr} {out}
    (h : matchRuntimePart id st r5 = some out) : '(' ∈ r5 := by
  unfold matchRuntimePart at h
  split at h
  · exact List.mem_cons_self _ _
  · simp at h

lemma matchRuntimePart_state {id st r5 : JStr} {out}
    (h : matchRuntimePart id st r5 = some out) : out.2.1 = st := by
  unfold matchRuntimePart at h
  split at h
  · split at h
    · obtain rfl := (Option.some.injEq _ _).mp h
      rfl
    · simp at h
  · simp at h

lemma matchStatePart_facts {id r2 : JStr} {out}
    (h : matchStatePart id r2 = some out) :
    '(' ∈ r2 ∧ out.2.1 ≠ [] ∧ out.2.1.all isWordChar := by
  unfold matchStatePart at h
  split at h
  · simp at h
  · rename_i st r4 htw
    have hmem : '(' ∈ skipWs r4 := matchRuntimePart_paren h
    have hsub : List.Sublist (skipWs r4) r2 :=
      ((skipWs_sublist r4).trans (takeWord_rest_sublist htw)).trans (skipWs_sublist r2)
    have hst : out.2.1 = st := matchRuntimePart_state h
    obtain ⟨hne, hall, -⟩ := takeWord_char htw
    exact ⟨hsub.subset hmem, by rw [hst]; exact hne, by rw [hst]; exact hall⟩

lemma matchAfterMarker_facts {r : JStr} {out}
    (h : matchAfterMarker r = some out) :
    '(' ∈ r ∧ out.2.1 ≠ [] ∧ out.2.1.all isWordChar := by
  unfold matchAfterMarker at h
  split at h
  · rename_i id r2 htw
    obtain ⟨hmem, hrest⟩ := matchStatePart_facts h
    have hsub : List.Sublist r2 r :=
      (List.tail_sublist (':' :: r2)).trans (takeWord_rest_sublist htw)
    exact ⟨hsub.subset hmem, hrest⟩
  · simp at h

lemma matchStatusAt_facts {s : JStr} {out}
    (h : matchStatusAt s = some out) :
    '(' ∈ s ∧ out.2.1 ≠ [] ∧ out.2.1.all isWordChar := by
  unfold matchStatusAt at h
  split at h
  · obtain ⟨hmem, hrest⟩ := matchAfterMarker_facts h
    exact ⟨List.mem_cons_of_mem _ (List.mem_cons_of_mem _ (List.mem_cons_of_mem _ hmem)), hrest⟩
  · simp at h

lemma scanStates_nil_of_no_paren :
    ∀ (fuel : Nat) (s : JStr) (b : Bool), '(' ∉ s → scanStates fuel s b = [] := by
  intro fuel
  induction fuel with
  | zero => intro s b _; rfl
  | succ n ih =>
    intro s b h
    cases s with
    | nil => rfl
    | cons c cs =>
      have hcs : '(' ∉ cs := fun hm => h (List.mem_cons_of_mem _ hm)
      have hm : matchStatusAt (c :: cs) = none := by
        cases hmm : matchStatusAt (c :: cs) with
        | none => rfl
        | some out => exact absurd (matchStatusAt_facts hmm).1 h
      simp [scanStates, hm, ih _ _ hcs]

lemma scanStates_state_wf :
    ∀ (fuel : Nat) (s : JStr) (b : Bool) t, t ∈ scanStates fuel s b →
      t.2.1 ≠ [] ∧ t.2.1.all isWordChar := by
  intro fuel
  induction fuel with
  | zero => intro s b t ht; simp [scanStates] at ht
  | succ n ih =>
    intro s b t ht
    cases s with
    | nil => simp [scanStates] at ht
    | cons c cs =>
      cases b with
      | false =>
        simp only [scanStates, Bool.false_eq_true, if_false] at ht
        exact ih _ _ _ ht
      | true =>
        simp only [scanStates, if_true] at ht
        cases hmm : matchStatusAt (c :: cs) with
        | none =>
          rw [hmm] at ht
          exact ih _ _ _ ht
        | some out =>
          obtain ⟨id, st, rt, rest⟩ := out
          rw [hmm] at ht
          simp only [List.mem_cons] at ht
          rcases ht with rfl | ht
          · exact (matchStatusAt_facts hmm).2
          · exact ih _ _ _ ht

lemma lookupBlock_cons_ne {k' : JStr} {v' : BlockEntry} {m : List (JStr × BlockEntry)}
    {id : JStr} (h : ¬(k' = id)) :
    lookupBlock ((k', v') :: m) id = lookupBlock m id := by
  simp [lookupBlock, List.find?_cons, h]

lemma lookupBlock_cons_self {k : JStr} {v : BlockEntry} {m : List (JStr × BlockEntry)} :
    lookupBlock ((k, v) :: m) k = some v := by
  simp [lookupBlock, List.find?_cons]

lemma lookupBlock_upsert (m : List (JStr × BlockEntry)) (k : JStr) (v : BlockEntry)
    (id : JStr) :
    lookupBlock (upsert m k v) id = if id = k then some v else lookupBlock m id := by
  induction m with
  | nil =>
    by_cases h : id = k
    · subst h; simp [upsert, lookupBlock]
    · have h' : ¬(k = id) := fun e => h e.symm
      simp [upsert, lookupBlock, h, h']
  | cons p rest ih =>
    obtain ⟨k', v'⟩ := p
    by_cases hk : k' = k
    · subst hk
      simp only [upsert, if_true]
      by_cases hid : id = k'
      · rw [hid, lookupBlock_cons_self, if_pos rfl]
      · have h' : ¬(k' = id) := fun e => hid e.symm
        rw [lookupBlock_cons_ne h', lookupBlock_cons_ne h', if_neg hid]
    · simp only [upsert]
      rw [if_neg hk]
      by_cases hid : id = k'
      · rw [hid, lookupBlock_cons_self, lookupBlock_cons_self, if_neg hk]
      · have h' : ¬(k' = id) := fun e => hid e.symm
        rw [lookupBlock_cons_ne h', lookupBlock_cons_ne h', ih]

lemma lookupBlock_foldl_upsert (ts : List (JStr × JStr × Nat)) :
    ∀ (m : List (JStr × BlockEntry)) (id : JStr) (e : BlockEntry),
      lookupBlock (ts.foldl (fun m t => upsert m t.1 ⟨t.2.1, t.2.2⟩) m) id = some e →
      (∃ t ∈ ts, t.1 = id ∧ e = ⟨t.2.1, t.2.2⟩) ∨ lookupBlock m id = some e := by
  induction ts with
  | nil => intro m id e h; exact .inr h
  | cons t ts ih =>
    intro m id e h
    rcases ih _ _ _ h with hmem | hbase
    · obtain ⟨t', ht', h1, h2⟩ := hmem
      exact .inl ⟨t', List.mem_cons_of_mem _ ht', h1, h2⟩
    · rw [lookupBlock_upsert] at hbase
      by_cases hid : id = t.1
      · rw [if_pos hid] at hbase
        exact .inl ⟨t, List.mem_cons_self _ _, hid.symm, ((Option.some.injEq _ _).mp hbase).symm⟩
      · rw [if_neg hid] at hbase
        exact .inr hbase

lemma parseStates_word {s id : JStr} {e : BlockEntry}
    (h : lookupBlock (parseStates s) id = some e) :
    e.state ≠ [] ∧ e.state.all isWordChar := by
  unfold parseStates at h
  rcases lookupBlock_foldl_upsert _ _ _ _ h with ⟨t, ht, -, he⟩ | hbase
  · have hw := scanStates_state_wf _ _ _ _ ht
    rw [he]
    exact hw
  · simp [lookupBlock] at hbase

lemma lookupBlock_isSome_of_mem_keys {m : List (JStr × BlockEntry)} {id : JStr}
    (h : id ∈ m.map (fun p => p.1)) : ∃ e, lookupBlock m id = some e := by
  obtain ⟨p, hp, rfl⟩ := List.mem_map.mp h
  have hs : (m.find? (fun q => q.1 = p.1)).isSome :=
    List.find?_isSome.mpr ⟨p, hp, by simp⟩
  cases hfind : m.find? (fun q => q.1 = p.1) with
  | none => rw [hfind] at hs; simp at hs
  | some e => exact ⟨e.2, by simp [lookupBlock, hfind]⟩

lemma isAttrChange_self (m : List (JStr × BlockEntry)) (a : Attr) :
    isAttrChange m m a = false := by
  unfold isAttrChange
  rw [List.any_eq_false]
  intro id hid
  have hkeys : id ∈ m.map (fun p => p.1) := by
    rcases List.mem_append.mp (List.mem_dedup.mp hid) with h | h <;> exact h
  obtain ⟨e, he⟩ := lookupBlock_isSome_of_mem_keys hkeys
  rw [he]
  simp

lemma splitLines_nil : splitLines [] = [[]] := rfl

lemma splitLines_cons (c : Char) (cs : JStr) :
    splitLines (c :: cs) = if c = '\n' then [] :: splitLines cs else consHead c (splitLines cs) :=
  rfl

lemma consHead_cons (c : Char) (l : JStr) (ls : List JStr) :
    consHead c (l :: ls) = (c :: l) :: ls := rfl

lemma joinLines_singleton (l : JStr) : joinLines [l] = l := rfl

lemma joinLines_cons2 (l l2 : JStr) (ls : List JStr) :
    joinLines (l :: l2 :: ls) = l ++ '\n' :: joinLines (l2 :: ls) := rfl

lemma splitLines_ne_nil (s : JStr) : splitLines s ≠ [] := by
  cases s with
  | nil => simp [splitLines_nil]
  | cons c cs =>
    rw [splitLines_cons]
    by_cases h : c = '\n'
    · simp [h]
    · rw [if_neg h]
      cases splitLines cs <;> simp [consHead]

lemma splitLines_exists_cons (s : JStr) : ∃ l ls, splitLines s = l :: ls := by
  cases h : splitLines s with
  | nil => exact absurd h (splitLines_ne_nil s)
  | cons l ls => exact ⟨l, ls, rfl⟩

lemma joinLines_splitLines (s : JStr) : joinLines (splitLines s) = s := by
  induction s with
  | nil => rfl
  | cons c cs ih =>
    rw [splitLines_cons]
    by_cases h : c = '\n'
    · subst h
      rw [if_pos rfl]
      obtain ⟨l, ls, hsp⟩ := splitLines_exists_cons cs
      rw [hsp, joinLines_cons2, List.nil_append, ← hsp, ih]
    · rw [if_neg h]
      obtain ⟨l, ls, hsp⟩ := splitLines_exists_cons cs
      rw [hsp, consHead_cons]
      cases ls with
      | nil =>
        rw [joinLines_singleton]
        rw [hsp, joinLines_singleton] at ih
        rw [ih]
      | cons l2 ls2 =>
        rw [joinLines_cons2]
        rw [hsp, joinLines_cons2] at ih
        rw [List.cons_append, ih]

lemma consHead_append (c : Char) {A : List JStr} (h : A ≠ []) (B : List JStr) :
    consHead c (A ++ B) = consHead c A ++ B := by
  cases A with
  | nil => exact absurd rfl h
  | cons l ls => rfl

lemma splitLines_append_newline (a b : JStr) :
    splitLines (a ++ '\n' :: b) = splitLines a ++ splitLines b := by
  induction a with
  | nil =>
    rw [List.nil_append, splitLines_cons, if_pos rfl, splitLines_nil]
    rfl
  | cons c cs ih =>
    rw [List.cons_append, splitLines_cons, splitLines_cons]
    by_cases h : c = '\n'
    · rw [if_pos h, if_pos h, ih, List.cons_append]
    · rw [if_neg h, if_neg h, ih, consHead_append c (splitLines_ne_nil cs)]

lemma stripComments_eq_self_of {s : JStr}
    (h : ∀ l ∈ splitLines s, isCommentLine l = false) : stripComments s = s := by
  unfold stripComments
  rw [List.map_congr_left (fun l hl => by rw [if_neg]; rw [h l hl]; simp),
    List.map_id', joinLines_splitLines]

lemma dropWhile_of_prefix_of_fix {A d : JStr} (hpref : List.IsPrefix d A)
    (hfix : A.dropWhile isWsChar = A) : d.dropWhile isWsChar = d := by
  cases d with
  | nil => rfl
  | cons c rest =>
    obtain ⟨t, ht⟩ := hpref
    have hc : isWsChar c = false := by
      by_cases hc : isWsChar c = true
      · exfalso
        rw [← ht, List.cons_append, List.dropWhile_cons, if_pos hc] at hfix
        have hlen := (List.dropWhile_sublist (l := rest ++ t) isWsChar).length_le
        rw [hfix] at hlen
        simp at hlen
      · exact Bool.eq_false_iff.mpr hc
    rw [List.dropWhile_cons, if_neg (by rw [hc]; simp)]

lemma dropWhile_trimChars (y : JStr) : (trimChars y).dropWhile isWsChar = trimChars y := by
  have hpref : List.IsPrefix (trimChars y) (y.dropWhile isWsChar) := by
    have h2 := List.reverse_prefix.mpr
      (List.dropWhile_suffix (l := (y.dropWhile isWsChar).reverse) isWsChar)
    rw [List.reverse_reverse] at h2
    exact h2
  exact dropWhile_of_prefix_of_fix hpref (List.dropWhile_idempotent _ _)

lemma reverse_dropWhile_trimChars (y : JStr) :
    (trimChars y).reverse.dropWhile isWsChar = (trimChars y).reverse := by
  unfold trimChars
  rw [List.reverse_reverse]
  exact List.dropWhile_idempotent _ _

lemma trimChars_eq_of {s : JStr} (h1 : s.dropWhile isWsChar = s)
    (h2 : s.reverse.dropWhile isWsChar = s.reverse) : trimChars s = s := by
  unfold trimChars
  rw [h1, h2, List.reverse_reverse]

lemma trimChars_idem (y : JStr) : trimChars (trimChars y) = trimChars y :=
  trimChars_eq_of (dropWhile_trimChars y) (reverse_dropWhile_trimChars y)

lemma containsSub_of_prefix {needle hay : JStr} (h : List.IsPrefix needle hay) :
    containsSub needle hay = true := by
  unfold containsSub
  rw [List.any_eq_true]
  exact ⟨hay, (List.mem_tails _ _).mpr (List.suffix_refl hay),
    List.isPrefixOf_iff_prefix.mpr h⟩

lemma extractDiagram_fixed {s : JStr} (hstrip : stripComments s = s)
    (htrim : trimChars s = s) (hc : containsSub configNeedle s = true) :
    extractDiagram s = s := by
  unfold extractDiagram
  rw [hstrip, htrim, if_pos hc]

lemma trimChars_theme_append {d : JStr} (hd : d ≠ [])
    (hrev : d.reverse.dropWhile isWsChar = d.reverse) :
    trimChars (themeConfig ++ d) = themeConfig ++ d := by
  have hth : themeConfig.dropWhile isWsChar = themeConfig := by decide
  have hthe : themeConfig.isEmpty = false := by decide
  apply trimChars_eq_of
  · rw [List.dropWhile_append, hth]
    rw [if_neg (by rw [hthe]; simp)]
  · rw [List.reverse_append, List.dropWhile_append, hrev]
    rw [if_neg (by simp [hd])]

lemma processContent_eq (pd : JStr → Option Int) (st : MgrState) (body : JStr) :
    processContent pd st body =
      match redrawCond st (extractDiagram body) (parseStates body) (getTimestamp pd body) with
      | .error _ => .error (st, false)
      | .ok rc =>
        let st1 : MgrState :=
          if rc then ⟨some (extractDiagram body), some (parseStates body), getTimestamp pd body⟩
          else st
        match isAttrChangeJS st1.lastStates (parseStates body) .runtime with
        | .error _ => .error (st1, rc)
        | .ok uc =>
          .ok (if uc then { st1 with lastStates := some (parseStates body) } else st1, rc, uc) :=
  rfl

lemma redrawCond_ok_true_of_none {st : MgrState} (h : st.lastDiagram = none)
    (d : JStr) (s : List (JStr × BlockEntry)) (t : Option Int) :
    redrawCond st d s t = .ok true := by
  unfold redrawCond
  rw [if_pos (by rw [h]; simp)]

lemma processContent_of_redraw_true {pd : JStr → Option Int} {st : MgrState} {body : JStr}
    (h : redrawCond st (extractDiagram body) (parseStates body) (getTimestamp pd body) = .ok true) :
    processContent pd st body =
      .ok (⟨some (extractDiagram body), some (parseStates body), getTimestamp pd body⟩,
        true, false) := by
  rw [processContent_eq, h]
  simp [isAttrChangeJS, isAttrChange_self]

lemma processContent_of_redraw_false {pd : JStr → Option Int} {st : MgrState} {body : JStr}
    (h : redrawCond st (extractDiagram body) (parseStates body) (getTimestamp pd body) = .ok false) :
    processContent pd st body =
      match isAttrChangeJS st.lastStates (parseStates body) .runtime with
      | .error _ => .error (st, false)
      | .ok uc =>
        .ok (if uc then { st with lastStates := some (parseStates body) } else st, false, uc) := by
  rw [processContent_eq, h]
  rfl

lemma redrawCond_ok_of_some {st : MgrState} {prev : List (JStr × BlockEntry)}
    (hls : st.lastStates = some prev) (d : JStr) (s : List (JStr × BlockEntry))
    (t : Option Int) : ∃ b, redrawCond st d s t = .ok b := by
  unfold redrawCond
  by_cases hd : st.lastDiagram ≠ some d
  · exact ⟨true, by rw [if_pos hd]⟩
  · rw [if_neg hd, hls]
    simp only [isAttrChangeJS]
    cases isAttrChange prev s .state
    · exact ⟨_, rfl⟩
    · exact ⟨true, rfl⟩

lemma redrawCond_false_diagram {st : MgrState} {d : JStr} {s : List (JStr × BlockEntry)}
    {t : Option Int} (h : redrawCond st d s t = .ok false) :
    st.lastDiagram = some d := by
  unfold redrawCond at h
  by_cases hd : st.lastDiagram ≠ some d
  · rw [if_pos hd] at h; simp at h
  · exact not_not.mp hd

/-! ### Claim theorems -/

/-- Claim C1 — counterexample.  The two-cycle scenario of the spec: the
diagram body is unchanged between `content1` and `content2`, block
`Read`'s state and runtime both changed, so `runtimeChanged` holds — yet
in the second cycle only the redraw channel fires and the update channel
stays silent, because the redraw branch overwrote `lastStates` with the
fresh states before the runtime comparison ran. -/
theorem c1_counterexample :
    isAttrChange (parseStates content1) (parseStates content2) Attr.runtime = true ∧
    extractDiagram content1 = extractDiagram content2 ∧
    (fetchCycle pdNone stAfterC1 (.ok 200 content2)).2.1 = true ∧
    (fetchCycle pdNone stAfterC1 (.ok 200 content2)).2.2 = false := by
  refine ⟨by decide, by decide, by decide, by decide⟩

/-- Claim C1 — amended.  The update channel is not independent of the
redraw channel: whenever the redraw branch fires in a cycle, it first
overwrites the retained `lastStates` with the freshly parsed states, so
the subsequent runtime comparison is against the fresh states themselves
and the update channel never fires in that cycle.  Only in a cycle whose
redraw condition is false does the update channel fire, and then exactly
when some block's runtime differs between the previously retained states
and the fresh ones. -/
theorem c1_update_not_independent (pd : JStr → Option Int) (st : MgrState)
    (body : JStr) (out : MgrState × Bool × Bool)
    (h : processContent pd st body = .ok out) :
    (out.2.1 = true → out.2.2 = false) ∧
    (out.2.1 = false → ∃ prev, st.lastStates = some prev ∧
      out.2.2 = isAttrChange prev (parseStates body) Attr.runtime) := by
  cases hrc : redrawCond st (extractDiagram body) (parseStates body) (getTimestamp pd body) with
  | error e =>
    rw [processContent_eq, hrc] at h
    simp at h
  | ok rc =>
    cases rc with
    | true =>
      rw [processContent_of_redraw_true hrc] at h
      simp only [Except.ok.injEq] at h
      subst h
      exact ⟨fun _ => rfl, fun hf => absurd hf (by simp)⟩
    | false =>
      rw [processContent_of_redraw_false hrc] at h
      cases hls : st.lastStates with
      | none => rw [hls] at h; simp [isAttrChangeJS] at h
      | some prev =>
        rw [hls] at h
        simp only [isAttrChangeJS, Except.ok.injEq] at h
        subst h
        refine ⟨by simp, fun _ => ⟨prev, rfl, rfl⟩⟩

/-- Claim C1 — witness for `c1_update_not_independent` on a first
cycle, whose redraw branch always fires. -/
theorem c1_witness : ∃ out, processContent pdNone initState [] = Except.ok out ∧
    out.2.2 = false :=
  have h : processContent pdNone initState [] =
      Except.ok (⟨some themeConfig, some [], none⟩, true, false) := by rfl
  ⟨_, h, (c1_update_not_independent pdNone initState [] _ h).1 rfl⟩

/-- Claim C10 — confirmed.  The invariant `lastStates = null ↔ lastDiagram
= null` holds initially and is preserved by every fetch cycle, and under
it a successful cycle never reaches the null-dereference branch of
`isAttrChange`: when both fields are null the diagram-inequality disjunct
short-circuits the state comparison, and the redraw branch has always
re-populated `lastStates` before the runtime comparison runs, so
`processContent` returns without throwing (with subscriber callbacks
modelled as non-throwing). -/
theorem c10_invariant_no_throw : MgrInv initState ∧
    ∀ (pd : JStr → Option Int) (st : MgrState) (fr : FetchResult), MgrInv st →
      (∀ status body, fr = FetchResult.ok status body →
        ∃ out, processContent pd st body = Except.ok out) ∧
      MgrInv (fetchCycle pd st fr).1 := by
  constructor
  · simp [MgrInv, initState]
  intro pd st fr hinv
  have key : ∀ body, ∃ st2 rc uc,
      processContent pd st body = .ok (st2, rc, uc) ∧ MgrInv st2 := by
    intro body
    cases hls : st.lastStates with
    | none =>
      have hld : st.lastDiagram = none := hinv.mp hls
      have hrc := redrawCond_ok_true_of_none hld (extractDiagram body) (parseStates body)
        (getTimestamp pd body)
      exact ⟨_, _, _, processContent_of_redraw_true hrc, by simp [MgrInv]⟩
    | some prev =>
      obtain ⟨b, hrc⟩ := redrawCond_ok_of_some hls (extractDiagram body) (parseStates body)
        (getTimestamp pd body)
      cases b with
      | true => exact ⟨_, _, _, processContent_of_redraw_true hrc, by simp [MgrInv]⟩
      | false =>
        have hld : st.lastDiagram = some (extractDiagram body) := redrawCond_false_diagram hrc
        have hpc := processContent_of_redraw_false hrc
        rw [hls] at hpc
        simp only [isAttrChangeJS] at hpc
        cases huc : isAttrChange prev (parseStates body) Attr.runtime with
        | false =>
          rw [huc] at hpc
          refine ⟨st, false, false, ?_, hinv⟩
          rw [hpc]
          rfl
        | true =>
          rw [huc] at hpc
          refine ⟨{ st with lastStates := some (parseStates body) }, false, true, ?_, ?_⟩
          · rw [hpc]
            rfl
          · simp [MgrInv, hld]
  constructor
  · intro status body hfr
    obtain ⟨st2, rc, uc, hp, -⟩ := key body
    exact ⟨_, hp⟩
  · cases fr with
    | err => exact hinv
    | ok status body =>
      obtain ⟨st2, rc, uc, hp, hinv2⟩ := key body
      unfold fetchCycle
      show MgrInv (match processContent pd st body with
        | Except.ok r => r
        | Except.error (st', rf) => (st', rf, false)).1
      rw [hp]
      exact hinv2

/-- Claim C10 — witness for `c10_invariant_no_throw`: the very first
cycle on a concrete body completes without throwing. -/
theorem c10_witness : ∃ out, processContent pdNone initState bodyPlain = Except.ok out :=
  (c10_invariant_no_throw.2 pdNone initState (FetchResult.ok 200 bodyPlain)
    (by simp [MgrInv, initState])).1 200 bodyPlain rfl

/-- Claim C2 — counterexample.  The code never inspects the HTTP status:
a fetch cycle whose response has the non-success status 404 is processed
like a success, so it replaces the retained snapshot and notifies the
redraw subscribers, contrary to the claim that such a cycle aborts
silently with the snapshot unchanged and no subscriber notified. -/
theorem c2_counterexample :
    (fetchCycle pdNone stAfterPlain (.ok 404 bodyNotFound)).2.1 = true ∧
    (fetchCycle pdNone stAfterPlain (.ok 404 bodyNotFound)).1 ≠ stAfterPlain := by
  constructor
  · rfl
  · decide

/-- Claim C2 — amended.  Only a rejected fetch (network error) aborts the
cycle silently: the retained snapshot is unchanged, neither channel
fires, no error escapes (`fetchCycle` returns normally), and neither the
manager state nor the timer of the poller is affected by the completion
of such a cycle.  The HTTP status of a response is never inspected, so a
non-success response is processed like a success. -/
theorem c2_reject_silent (pd : JStr → Option Int) (st : MgrState) (s : PollerState) :
    fetchCycle pd st FetchResult.err = (st, false, false) ∧
    (completeStep pd s FetchResult.err).1.mgr = s.mgr ∧
    (completeStep pd s FetchResult.err).1.timerOn = s.timerOn := by
  refine ⟨rfl, ?_, ?_⟩ <;>
    · unfold completeStep
      split <;> simp [fetchCycle]

/-- Claim C5 — counterexample.  With two registered callbacks of which
the first throws, `forEach` delivery reaches only one of the two: the
thrown exception prevents delivery to the remaining callback. -/
theorem c5_counterexample :
    (deliver cbsThrowFirst []).1 = 1 ∧ cbsThrowFirst.length = 2 :=
  ⟨rfl, rfl⟩

/-- Claim C5 — amended.  A callback that throws aborts the `forEach`
notification loop: every callback registered before it is invoked, the
throwing callback is invoked, and the callbacks registered after it are
not; the loop reports the abort (the exception then propagates to the
promise chain, where the cycle's `catch` swallows it, so the poll cycle
itself does not crash — see `fetchCycle`). -/
theorem c5_abort_at_throw (pre : List (JStr → Bool)) (f : JStr → Bool)
    (post : List (JStr → Bool)) (c : JStr)
    (hpre : ∀ g ∈ pre, g c = false) (hf : f c = true) :
    deliver (pre ++ f :: post) c = (pre.length + 1, true) := by
  induction pre with
  | nil => simp [deliver, hf]
  | cons g gs ih =>
    have hg : g c = false := hpre g (List.mem_cons_self g gs)
    have ihr := ih (fun g' hg' => hpre g' (List.mem_cons_of_mem g hg'))
    simp [deliver, hg, ihr]

/-- Claim C5 — witness for `c5_abort_at_throw` at a concrete input. -/
theorem c5_witness : deliver ([] ++ (fun _ => true) :: []) ([] : JStr) = (0 + 1, true) :=
  c5_abort_at_throw [] (fun _ => true) [] [] (by simp) rfl

/-- Claim C6 — counterexample.  `start()` issues an immediate fetch and
installs the interval timer; the next tick arrives while that first cycle
is still in flight, and because `fetchAndUpdate` has no in-flight guard
the tick starts a second cycle: two fetch-and-process cycles are then in
flight concurrently. -/
theorem c6_counterexample :
    (pollerRun pdNone pollerInit [PEvent.start, PEvent.tick]).inFlight = 2 := rfl

/-- Claim C6 — amended.  The implementation does not gate cycles on an
in-flight flag: while the timer is installed, every tick unconditionally
starts a new fetch cycle, so the number of in-flight cycles grows beyond
one when a cycle outlives the interval.  (Only `start()` itself is
guarded, against installing a second timer; the synchronous processing of
each response still runs to completion without interleaving.) -/
theorem c6_tick_unguarded (s : PollerState) (h : s.timerOn = true) :
    (tickStep s).inFlight = s.inFlight + 1 := by
  simp [tickStep, h]

/-- Claim C6 — witness for `c6_tick_unguarded` right after `start()`. -/
theorem c6_witness :
    (tickStep (startStep pollerInit)).inFlight = (startStep pollerInit).inFlight + 1 :=
  c6_tick_unguarded _ rfl

/-- Claim C7 — confirmed.  Staleness as decided by `updateDiagram` with
the constant `MAX_STATUS_AGE_S`: a `null` age is never stale, and a
non-null age is stale exactly when it is at least 60 seconds; in
particular an age of 59.999 seconds is not stale while an age of exactly
60 seconds is. -/
theorem c7_staleness :
    isStale none = false ∧
    (∀ a : ℚ, isStale (some a) = true ↔ MAX_STATUS_AGE_S ≤ a) ∧
    isStale (some (59999 / 1000)) = false ∧
    isStale (some 60) = true := by
  refine ⟨rfl, fun a => by simp [isStale, ge_iff_le], ?_, ?_⟩
  · simp only [isStale, MAX_STATUS_AGE_S, decide_eq_false_iff_not, not_le, ge_iff_le]
    norm_num
  · simp only [isStale, MAX_STATUS_AGE_S, ge_iff_le, decide_eq_true_eq]
    norm_num

/-- Claim C3 — counterexample.  The README's own example line
`%% Inform: Waiting` — a valid state token with no duration suffix — is
not matched by the `parseStates` regex, whose `\((\d+)s\)` part is not
optional: the block `Inform` is absent from the result instead of being
present with state `Waiting` and an undefined runtime. -/
theorem c3_counterexample :
    lookupBlock (parseStates noDurationLine) ("Inform".toList) = none ∧
    parseStates noDurationLine = [] := by
  constructor <;> decide

/-- Claim C3 — amended.  The duration suffix is mandatory in the line
grammar of `parseStates`: its regex requires a parenthesised duration, so
any text containing no `(` character at all — in particular a status
comment line with a valid state token and no duration suffix — yields the
empty result, leaving every mentioned block absent. -/
theorem c3_duration_mandatory (s : JStr) (h : '(' ∉ s) : parseStates s = [] := by
  unfold parseStates
  rw [scanStates_nil_of_no_paren _ _ _ h]
  rfl

/-- Claim C3 — witness for `c3_duration_mandatory` on the README line. -/
theorem c3_witness : '(' ∉ noDurationLine ∧ parseStates noDurationLine = [] :=
  ⟨by decide, c3_duration_mandatory noDurationLine (by decide)⟩

/-- Claim C4 — counterexample.  The comment line `%% A: Bogus (5s)`,
whose state token lies outside the four-value vocabulary, is matched by
`parseStates` — the regex accepts any `\w+` token as the state — so the
block `A` is present in the result with the out-of-vocabulary state
`Bogus`, instead of being treated as a non-match and left absent. -/
theorem c4_counterexample :
    lookupBlock (parseStates bogusStateLine) ("A".toList) = some ⟨"Bogus".toList, 5⟩ ∧
    "Bogus".toList ∉ stateVocab := by
  constructor <;> decide

/-- Claim C4 — amended.  `parseStates` performs no vocabulary check: the
state of every block in its result is an arbitrary nonempty word-character
token copied verbatim from the matched line; membership in
{Waiting, Running, Success, Failed} is not enforced by the parser. -/
theorem c4_any_word_state (s id : JStr) (e : BlockEntry)
    (h : lookupBlock (parseStates s) id = some e) :
    e.state ≠ [] ∧ e.state.all isWordChar :=
  parseStates_word h

/-- Claim C4 — witness for `c4_any_word_state` on the `Bogus` line. -/
theorem c4_witness :
    (⟨"Bogus".toList, 5⟩ : BlockEntry).state ≠ [] ∧
    (⟨"Bogus".toList, 5⟩ : BlockEntry).state.all isWordChar :=
  c4_any_word_state bogusStateLine ("A".toList) ⟨"Bogus".toList, 5⟩ (by decide)

/-- Claim C9 — confirmed.  The timestamp parser is total by construction
(the modelled `TypeError` of `timestampMatch[1]` on a failed match is
caught and the invalid-date check yields `null`, so `getTimestamp` always
returns normally), and it returns `null` exactly when the
status-declaration line is missing or its value does not parse as a valid
instant; otherwise it returns the parsed instant. -/
theorem c9_timestamp_total (parseDate : JStr → Option Int) (s : JStr) :
    (getTimestamp parseDate s = none ↔
      statusCapture s = none ∨
        ∃ v, statusCapture s = some v ∧ parseDate (trimChars v) = none) ∧
    (∀ v t, statusCapture s = some v → parseDate (trimChars v) = some t →
      getTimestamp parseDate s = some t) := by
  constructor
  · unfold getTimestamp getTimestampBody
    cases h : statusCapture s with
    | none => simp
    | some v => simp [h]
  · intro v t hv ht
    unfold getTimestamp getTimestampBody
    rw [hv]
    simp [ht]

/-- Claim C9 — witness for `c9_timestamp_total` on a concrete status
line with a parseable value. -/
theorem c9_witness : getTimestamp pdT ("%% Status: T0".toList) = some 0 :=
  (c9_timestamp_total pdT ("%% Status: T0".toList)).2 ("T0".toList) 0
    (by decide) (by decide)

/-- Claim C8 — confirmed.  Diagram-body extraction is idempotent on
valid resource texts.  Validity, per the resource format of the spec, is
formalised as: the comment-stripped trimmed body is nonempty (a valid
resource has a diagram body), and it contains no residual line starting
with the comment marker (comments sit at line starts, so stripping
removes them all; trimming can expose a marker only on texts whose first
comment line is indented, which the format does not produce).  Under
these hypotheses `extractDiagram (extractDiagram x) = extractDiagram x`:
a second extraction strips nothing, trims nothing, and finds the
injected `---\nconfig:` preamble already present. -/
theorem c8_idempotent (x : JStr)
    (hbody : trimChars (stripComments x) ≠ [])
    (hlines : ∀ l ∈ splitLines (trimChars (stripComments x)), isCommentLine l = false) :
    extractDiagram (extractDiagram x) = extractDiagram x := by
  have hstrip_d : stripComments (trimChars (stripComments x)) = trimChars (stripComments x) :=
    stripComments_eq_self_of hlines
  have htrim_d : trimChars (trimChars (stripComments x)) = trimChars (stripComments x) :=
    trimChars_idem _
  by_cases hc : containsSub configNeedle (trimChars (stripComments x)) = true
  · have hx : extractDiagram x = trimChars (stripComments x) := by
      unfold extractDiagram
      rw [if_pos hc]
    rw [hx]
    exact extractDiagram_fixed hstrip_d htrim_d hc
  · have hx : extractDiagram x = themeConfig ++ trimChars (stripComments x) := by
      unfold extractDiagram
      rw [if_neg hc]
    rw [hx]
    have happ : (themeConfig ++ trimChars (stripComments x) : JStr) =
        themeInit ++ '\n' :: trimChars (stripComments x) := by
      unfold themeConfig
      rw [List.append_assoc]
      rfl
    have hlines2 : ∀ l ∈ splitLines (themeConfig ++ trimChars (stripComments x)),
        isCommentLine l = false := by
      rw [happ, splitLines_append_newline]
      intro l hl
      rcases List.mem_append.mp hl with h1 | h2
      · exact (by decide : ∀ l ∈ splitLines themeInit, isCommentLine l = false) l h1
      · exact hlines l h2
    apply extractDiagram_fixed
    · exact stripComments_eq_self_of hlines2
    · exact trimChars_theme_append hbody (reverse_dropWhile_trimChars _)
    · exact containsSub_of_prefix
        ((by decide : List.IsPrefix configNeedle themeConfig).trans (List.prefix_append _ _))

/-- Claim C8 — witness for `c8_idempotent` on a concrete valid resource
text. -/
theorem c8_witness : extractDiagram (extractDiagram c8input) = extractDiagram c8input :=
  c8_idempotent c8input (by decide) (by decide)

end Dagmaid
